import Mathlib

/-!
# Verification of the gobang TUI engine against its specification

Shallow embedding of the parts of the `gobang` terminal database client
(src/) that the verified claims are about:

* `sql_utils.rs` — `find_last_separator` (the `\W+` word-boundary scan);
* `ui/textbox.rs` — the single-line text input (`TextBox`);
* `components/completion.rs` — the completion component;
* `ui/textarea.rs` — the multi-line SQL text area;
* `components/sql_editor.rs` — the SQL editor tab;
* `components/tab.rs` — the tab panel / toolbar state machine;
* `app.rs` — pool replacement in `App::update_databases`.

Conventions:

* Rust `Vec<char>` buffers are `List Char`; Rust `String` line buffers
  are also `List Char` (byte indices into a `String` coincide with
  character indices exactly when every character is ASCII, i.e. has
  UTF-8 size 1 — hypotheses below make that explicit where it matters).
* Partial operations (Rust indexing/slicing/`Vec::insert`/`Vec::remove`,
  integer underflow in debug builds) are modelled with `Option`: `none`
  means the Rust code panics on that input.
* `u16` quantities (the saturating cursor type `SaturatingU16`, `as u16`
  casts) are `Nat` with explicit `% 65536` truncation and saturating
  arithmetic where the source uses them.
-/

/-- Key events, mirroring the constructors of `crate::event::Key` that the
verified components match on.  (`F5` and the remaining variants are not
needed by any claim and are omitted; they would fall to the default
arms.) -/
inductive Key where
  | char (c : Char)
  | enter
  | tab
  | esc
  | backspace
  | delete
  | left
  | right
  | up
  | down
  | home
  | endKey
  | ctrlBackspace
  | ctrlLeft
  | ctrlHome
  | ctrlEnd
  | ctrlChar (c : Char)
deriving DecidableEq, Repr

/-- `EventState` from `components/mod.rs`. -/
inductive EventState where
  | consumed
  | notConsumed
deriving DecidableEq, Repr

/-- The key bindings consulted by the embedded components
(`config::KeyConfig`).  The config module is not part of `src/`; the
key-binding schema is an external pluggable service per the spec, so the
bindings are parameters of the model. -/
structure KeyConfig where
  move_up : Key
  move_down : Key
  focus_left : Key
  focus_right : Key
deriving DecidableEq, Repr

/-- A concrete key configuration used to evaluate the model: vim-style
move keys, arrow focus keys.  (Chosen so that the completion dropdown's
move keys do not shadow the arrow keys; `CompletionComponent::event`
consumes its two move keys unconditionally, before any cursor logic
runs.) -/
def kcJK : KeyConfig :=
  { move_up := Key.char 'k', move_down := Key.char 'j',
    focus_left := Key.left, focus_right := Key.right }

/-- Truncating `usize → u16` cast (`as u16` in the source). -/
def asU16 (n : Nat) : Nat := n % 65536

/-- Saturating `u16` addition: `SaturatingU16::add`/`add_assign`
(`saturating_types.rs`) saturate at `u16::MAX`.  Subtraction is
`Nat` subtraction, which already saturates at 0. -/
def satAdd (a b : Nat) : Nat := min (a + b) 65535

/-! ## `sql_utils.rs` -/

/-- `sql_utils::PatternPosition`.  `index` and `length` are **byte**
offsets, because `regex::Match::start()/end()` return byte offsets into
the searched string. -/
structure PatternPosition where
  index : Nat
  length : Nat
deriving DecidableEq, Repr

/-- Word characters of the regex `\w` class, restricted to the ASCII
range (`[0-9A-Za-z_]`).  The Rust regex crate's `\w` additionally
matches non-ASCII Unicode word characters; every non-ASCII character
appearing in the concrete inputs below (the em dash `—`) is a
non-word character in both the Rust semantics and this model. -/
def isWordChar (c : Char) : Bool :=
  c.isAlphanum || c = '_'

/-- UTF-8 byte length of a character list (the byte length of the
`String` the Rust code collects the characters into). -/
def byteLen (s : List Char) : Nat := (s.map Char.utf8Size).sum

/-- `sql_utils::find_last_separator`: the last match of the regex `\W+`
in the input, with byte offsets.  `\W+` is greedy, so `find_iter`
produces exactly the maximal runs of non-word characters in order and
`.last()` picks the final one.  The final maximal run is computed here
by scanning from the end: drop the trailing word characters, then the
run is the adjacent maximal block of non-word characters. -/
def find_last_separator (s : List Char) : Option PatternPosition :=
  let r := s.reverse
  let afterWord := r.dropWhile isWordChar
  let run := afterWord.takeWhile (fun c => !isWordChar c)
  if run.isEmpty then none
  else
    let endPos := byteLen s - byteLen (r.takeWhile isWordChar)
    some ⟨endPos - byteLen run, byteLen run⟩

/-! ## `ui/textbox.rs` -/

/-- `TextBox` state: the character buffer and the cursor index in
characters.  The display-only fields (placeholder, label, styles) and
the optional embedded completion component do not participate in the
operations the claims are about (`handle_textbox_event`,
`last_word_part`, `replace_last_word_part` never touch them) and are
modelled separately. -/
structure TextBox where
  input : List Char
  input_cursor_position : Nat
deriving DecidableEq, Repr

namespace TextBox

/-- `TextBox::last_word_part`: the text between the last separator and
the cursor.  Returns `none` when the Rust code panics: the char-slice
`input[..cursor]` requires `cursor ≤ len`, and the slice
`input[(index+length)..cursor]` uses the regex match's **byte** offset
as a char index and panics when it exceeds `cursor`.  (The Rust
function's return type is `Option<String>` but both of its paths return
`Some`; the inner option is therefore elided.) -/
def last_word_part (tb : TextBox) : Option (List Char) :=
  if tb.input_cursor_position ≤ tb.input.length then
    let s := tb.input.take tb.input_cursor_position
    match find_last_separator s with
    | some p =>
        if p.index + p.length ≤ tb.input_cursor_position then
          some (s.drop (p.index + p.length))
        else none
    | none => some s
  else none

/-- `TextBox::replace_last_word_part`: replaces the text between the
last separator (found in the buffer up to the cursor) and the cursor
with `text`; everything after the old cursor is dropped
(`input = prefix ++ text`), and the cursor moves to the end of the new
buffer.  `none` models the panics of the slices `input[..cursor]` and
`input[0..index+length]` (byte offset used as char index into the
`Vec<char>`). -/
def replace_last_word_part (tb : TextBox) (text : List Char) : Option TextBox :=
  if tb.input_cursor_position ≤ tb.input.length then
    match find_last_separator (tb.input.take tb.input_cursor_position) with
    | some p =>
        if p.index + p.length ≤ tb.input.length then
          let input' := tb.input.take (p.index + p.length) ++ text
          some ⟨input', input'.length⟩
        else none
    | none => some ⟨text, text.length⟩
  else none

/-- `TextBox::handle_textbox_event`: one key handled by the input
widget.  `none` models a panic:

* `Vec::insert` with an index above the length;
* in the `Ctrl+Backspace` arm, the slices `input[0..pos.index]` /
  `input[0..pos.index+pos.length]` index the `Vec<char>` with **byte**
  offsets returned by the regex search over the collected `String`. -/
def handle_textbox_event (key : Key) (tb : TextBox) : Option (TextBox × EventState) :=
  match key with
  | .char c =>
      if tb.input_cursor_position ≤ tb.input.length then
        some (⟨tb.input.take tb.input_cursor_position ++ c ::
                 tb.input.drop tb.input_cursor_position,
               tb.input_cursor_position + 1⟩, .consumed)
      else none
  | .delete =>
      if tb.input ≠ [] ∧ tb.input_cursor_position ≤ tb.input.length - 1 then
        some (⟨tb.input.eraseIdx tb.input_cursor_position,
               tb.input_cursor_position⟩, .consumed)
      else some (tb, .consumed)
  | .ctrlBackspace =>
      match find_last_separator tb.input with
      | some pos =>
          if pos.index + pos.length = tb.input_cursor_position then
            if pos.index ≤ tb.input.length then
              some (⟨tb.input.take pos.index, pos.index⟩, .consumed)
            else none
          else
            if pos.index + pos.length ≤ tb.input.length then
              some (⟨tb.input.take (pos.index + pos.length),
                     pos.index + pos.length⟩, .consumed)
            else none
      | none => some (⟨[], 0⟩, .consumed)
  | .ctrlLeft => some (tb, .notConsumed)
  | .backspace =>
      if tb.input ≠ [] ∧ tb.input_cursor_position > 0 then
        if tb.input_cursor_position - 1 < tb.input.length then
          some (⟨tb.input.eraseIdx (tb.input_cursor_position - 1),
                 tb.input_cursor_position - 1⟩, .consumed)
        else none
      else some (tb, .consumed)
  | .left =>
      if tb.input ≠ [] ∧ tb.input_cursor_position > 0 then
        some (⟨tb.input, tb.input_cursor_position - 1⟩, .consumed)
      else some (tb, .consumed)
  | .right =>
      if tb.input_cursor_position < tb.input.length then
        some (⟨tb.input, tb.input_cursor_position + 1⟩, .consumed)
      else some (tb, .consumed)
  | .ctrlChar c =>
      if c = 'a' then some (⟨tb.input, 0⟩, .consumed)
      else if c = 'e' then some (⟨tb.input, tb.input.length⟩, .consumed)
      else some (tb, .notConsumed)
  | .home => some (⟨tb.input, 0⟩, .consumed)
  | .endKey => some (⟨tb.input, tb.input.length⟩, .consumed)
  | _ => some (tb, .notConsumed)

end TextBox

/-! ## `components/completion.rs` -/

/-- `CompletionComponent` state: the driving word, the candidate list,
and the selected index (`ListState::selected`).  The pluggable
`completion_source` trait object is modelled by passing the source's
result (`suggested_completion_items`) to `update` as an argument: any
implementation returns either a candidate list or an error (e.g. the
pool-backed and default sources fail when `(?i)^word` is not a valid
regex). -/
structure CompletionState where
  word : List Char
  candidates : List (List Char)
  selected : Option Nat
deriving DecidableEq, Repr

/-- The result type of `FilterableCompletionSource::suggested_completion_items`. -/
abbrev SourceResult := Except Unit (List (List Char))

/-- A completion source as seen by a component that owns one. -/
abbrev CompletionSource := List Char → SourceResult

namespace CompletionState

/-- `CompletionComponent::new` / the state of a fresh component:
empty word, no candidates, nothing selected (`ListState::default`). -/
def new : CompletionState := ⟨[], [], none⟩

/-- `CompletionComponent::update`: stores the word part, clears the
selection, then asks the source.  On `Ok` the candidate list is
replaced and index 0 is selected iff the list is non-empty; on `Err`
the error is only logged — the candidate list keeps its previous
contents and the selection stays cleared.  The function always returns
normally. -/
def update (st : CompletionState) (word_part : List Char) (res : SourceResult) :
    CompletionState :=
  match res with
  | .ok cs => ⟨word_part, cs, if cs.isEmpty then none else some 0⟩
  | .error _ => ⟨word_part, st.candidates, none⟩

/-- `CompletionComponent::change_selection`: saturating move of the
selected index, applied only if the target index is in bounds. -/
def change_selection (st : CompletionState) (offset : Int) : CompletionState :=
  match st.selected with
  | none => st
  | some i =>
      let newIdx := if offset > 0 then i + offset.toNat else i - (-offset).toNat
      if newIdx < st.candidates.length then ⟨st.word, st.candidates, some newIdx⟩
      else st

/-- `CompletionComponent::next`. -/
def next (st : CompletionState) : CompletionState := st.change_selection 1

/-- `CompletionComponent::previous`. -/
def previous (st : CompletionState) : CompletionState := st.change_selection (-1)

/-- `CompletionComponent::selected_candidate`: `candidates[index]` —
the outer `none` models the panic of the index when it is out of
bounds; otherwise the Rust `Option<String>` result. -/
def selected_candidate (st : CompletionState) : Option (Option (List Char)) :=
  match st.selected with
  | none => some none
  | some i =>
      if h : i < st.candidates.length then some (some (st.candidates.get ⟨i, h⟩))
      else none

/-- `Component::is_visible` for the completion dropdown. -/
def is_visible (st : CompletionState) : Bool := !st.word.isEmpty

/-- `Component::reset` for the completion component: clears the word
and the selection (the candidate list is kept). -/
def reset (st : CompletionState) : CompletionState := ⟨[], st.candidates, none⟩

/-- `CompletionComponent::event`: the dropdown's own key handling.
It consumes the configured move keys unconditionally. -/
def event (kc : KeyConfig) (key : Key) (st : CompletionState) :
    CompletionState × EventState :=
  if key = kc.move_down then (st.next, .consumed)
  else if key = kc.move_up then (st.previous, .consumed)
  else (st, .notConsumed)

end CompletionState

/-- The operations that can reach a `CompletionComponent` from its
owner (`update` with some source result, the two selection moves via
`event`, and `reset`). -/
inductive CompOp where
  | update (w : List Char) (res : SourceResult)
  | moveDown
  | moveUp
  | reset

/-- One completion operation. -/
def compStep (op : CompOp) (st : CompletionState) : CompletionState :=
  match op with
  | .update w res => st.update w res
  | .moveDown => st.next
  | .moveUp => st.previous
  | .reset => st.reset

/-- A sequence of completion operations from a given state. -/
def runCompOps (ops : List CompOp) (st : CompletionState) : CompletionState :=
  match ops with
  | [] => st
  | op :: rest => runCompOps rest (compStep op st)

/-- The selection bounds invariant of the completion component. -/
def compInv (st : CompletionState) : Prop :=
  match st.selected with
  | none => True
  | some i => i < st.candidates.length

instance (st : CompletionState) : Decidable (compInv st) := by
  unfold compInv; exact match st.selected with
  | none => inferInstanceAs (Decidable True)
  | some _ => inferInstanceAs (Decidable (_ < _))

/-! ## `ui/textarea.rs` -/

/-- `TextArea` state: the line buffer (`Vec<String>`, each line a
character list), the embedded completion component, and the 2-D cursor.
`row`/`col` carry the numeric value of the `SaturatingU16` cursor
coordinates. -/
structure TextArea where
  buffer : List (List Char)
  completion : CompletionState
  row : Nat
  col : Nat
deriving DecidableEq, Repr

namespace TextArea

/-- `TextArea::new`: empty line buffer, cursor at `(0, 0)`, fresh
completion component. -/
def new : TextArea := ⟨[], CompletionState.new, 0, 0⟩

/-- `TextArea::update_completion`: feed the last word part of the
current line (up to the cursor) to the completion component.  `none`
models the panics of the byte slices `current_line[0..col]` and
`current_line[(index+length)..col]`. -/
def update_completion (src : CompletionSource) (ta : TextArea) : Option TextArea :=
  match ta.buffer[ta.row]? with
  | none => some ta
  | some line =>
      if ta.col ≤ line.length then
        let upTo := line.take ta.col
        match find_last_separator upTo with
        | some sep =>
            if sep.index + sep.length ≤ ta.col then
              let w := upTo.drop (sep.index + sep.length)
              some { ta with completion := ta.completion.update w (src w) }
            else none
        | none => some { ta with completion := ta.completion.update upTo (src upTo) }
      else none

/-- `TextArea::replace_last_word`: splice the candidate over the last
word part of the current line (`drain` + `insert_str`) and move the
column to the end of the insertion.  `none` models the byte-slice and
`drain`-range panics. -/
def replace_last_word (ta : TextArea) (candidate : List Char) : Option TextArea :=
  match ta.buffer[ta.row]? with
  | none => some ta
  | some line =>
      if ta.col ≤ line.length then
        match find_last_separator (line.take ta.col) with
        | some sep =>
            if sep.index + sep.length ≤ ta.col then
              let line' := line.take (sep.index + sep.length) ++ candidate ++
                line.drop ta.col
              some { ta with
                       buffer := ta.buffer.set ta.row line',
                       col := asU16 (sep.index + sep.length + candidate.length) }
            else none
        | none =>
            some { ta with
                     buffer := ta.buffer.set ta.row candidate,
                     col := asU16 candidate.length }
      else none

/-- `TextArea::remove_prev_char` (Backspace).  Returns the new state
and the Rust `bool` result; `none` models the panics of
`String::remove(col - 1)` (index out of range) and `Vec::remove(row)`. -/
def remove_prev_char (ta : TextArea) : Option (TextArea × Bool) :=
  if ta.row = 0 ∧ ta.col = 0 then some (ta, false)
  else if ta.col > 0 then
    match ta.buffer[ta.row]? with
    | some line =>
        if ta.col - 1 < line.length then
          some ({ ta with
                    buffer := ta.buffer.set ta.row (line.eraseIdx (ta.col - 1)),
                    col := ta.col - 1 }, true)
        else none
    | none => some (ta, false)
  else
    if ta.row < ta.buffer.length then
      let currentRow := (ta.buffer[ta.row]?).getD []
      let buf1 := ta.buffer.eraseIdx ta.row
      let row1 := ta.row - 1
      match buf1[row1]? with
      | some prevLine =>
          some (⟨buf1.set row1 (prevLine ++ currentRow), ta.completion, row1,
                 asU16 prevLine.length⟩, true)
      | none => some ({ ta with buffer := buf1, row := row1 }, false)
    else none

/-- `TextArea::remove_next_char` (Delete). -/
def remove_next_char (ta : TextArea) : Option (TextArea × Bool) :=
  let currLen := asU16 (((ta.buffer[ta.row]?).map List.length).getD 0)
  if ta.row = ta.buffer.length ∧ ta.col = ((ta.buffer.getLast?).map List.length).getD 0 then
    some (ta, false)
  else if currLen = 0 then
    if ta.row < ta.buffer.length then
      let buf1 := ta.buffer.eraseIdx ta.row
      let row1 := if ta.row > buf1.length then asU16 buf1.length else ta.row
      some ({ ta with buffer := buf1, row := row1 }, true)
    else none
  else if ta.col < currLen then
    match ta.buffer[ta.row]? with
    | some line =>
        if ta.col < line.length then
          some ({ ta with buffer := ta.buffer.set ta.row (line.eraseIdx ta.col) }, true)
        else none
    | none => some (ta, false)
  else if satAdd ta.row 1 < ta.buffer.length then
    let nextLine := (ta.buffer[satAdd ta.row 1]?).getD []
    let buf1 := ta.buffer.eraseIdx (satAdd ta.row 1)
    if nextLine.isEmpty then some ({ ta with buffer := buf1 }, true)
    else
      match buf1[ta.row]? with
      | some line => some ({ ta with buffer := buf1.set ta.row (line ++ nextLine) }, true)
      | none => some ({ ta with buffer := buf1 }, false)
  else some (ta, false)

/-- `TextArea::insert_new_line` (Enter): split the current line at the
cursor, insert the suffix as a new following line, and move the cursor
to its start.  `none` models the panic of
`self.buffer.insert((row + 1) as usize, new_line)` when `row + 1`
exceeds the buffer length — in particular on the empty line buffer of a
fresh text area, where `insert(1, …)` is called on a `Vec` of length
0. -/
def insert_new_line (ta : TextArea) : Option TextArea :=
  let currLen := asU16 (((ta.buffer[ta.row]?).map List.length).getD 0)
  let newLine : List Char :=
    if ta.col < currLen then ((ta.buffer[ta.row]?).getD []).drop ta.col else []
  let buf1 :=
    if ta.col < currLen then
      ta.buffer.set ta.row (((ta.buffer[ta.row]?).getD []).take ta.col)
    else ta.buffer
  if satAdd ta.row 1 ≤ buf1.length then
    some ⟨buf1.take (satAdd ta.row 1) ++ newLine :: buf1.drop (satAdd ta.row 1),
          ta.completion, satAdd ta.row 1, 0⟩
  else none

/-- `TextArea::complete_word`: commit the selected candidate (replace
the last word on the current line, then reset the completion). -/
def complete_word (ta : TextArea) : Option (TextArea × Bool) :=
  match ta.completion.selected_candidate with
  | none => none
  | some none => some (ta, false)
  | some (some cand) =>
      (ta.replace_last_word cand).map
        (fun ta' => ({ ta' with completion := ta'.completion.reset }, true))

/-- `TextArea::event` (`Component::event`): the full key handler.  The
embedded completion component sees every key first and consumes its two
configured move keys; afterwards the handler follows the source's
`if`-chain, with fall-through to `NotConsumed`.  The `Down` arm
reproduces the source faithfully: after `row += 1` it clamps the column
against `self.buffer.get(row.0 as usize)` where `row` is the **old**
row binding taken at the top of the function. -/
def event (src : CompletionSource) (kc : KeyConfig) (key : Key) (ta : TextArea) :
    Option (TextArea × EventState) :=
  let (comp1, st) := ta.completion.event kc key
  if st = .consumed then some ({ ta with completion := comp1 }, .consumed)
  else
    let ta := { ta with completion := comp1 }
    let col := ta.col
    let row := ta.row
    let currLen := asU16 (((ta.buffer[row]?).map List.length).getD 0)
    let lastLen := asU16 (((ta.buffer[row - 1]?).map List.length).getD 0)
    match key with
    | .char c =>
        let (buf0, lineIdx) :=
          match ta.buffer[row]? with
          | some _ => (ta.buffer, row)
          | none => (ta.buffer ++ [[]], ta.buffer.length)
        match buf0[lineIdx]? with
        | some line =>
            if col ≤ line.length then
              let ta1 := { ta with
                buffer := buf0.set lineIdx (line.take col ++ c :: line.drop col),
                col := satAdd col 1 }
              (update_completion src ta1).map (fun ta2 => (ta2, .consumed))
            else none
        | none => none
    | .enter =>
        if ta.completion.is_visible then
          match ta.complete_word with
          | none => none
          | some (ta1, true) => some (ta1, .consumed)
          | some (ta1, false) =>
              (ta1.insert_new_line).map
                (fun ta2 => ({ ta2 with completion := ta2.completion.reset }, .consumed))
        else
          (ta.insert_new_line).map
            (fun ta2 => ({ ta2 with completion := ta2.completion.reset }, .consumed))
    | .tab =>
        if ta.completion.is_visible then
          match ta.complete_word with
          | none => none
          | some (ta1, true) => some (ta1, .consumed)
          | some (ta1, false) => some (ta1, .notConsumed)
        else some (ta, .notConsumed)
    | .delete =>
        match ta.remove_next_char with
        | none => none
        | some (ta1, true) => (update_completion src ta1).map (fun ta2 => (ta2, .consumed))
        | some (ta1, false) => some (ta1, .notConsumed)
    | .home => some ({ ta with col := 0 }, .consumed)
    | .ctrlHome => some ({ ta with row := 0, col := 0 }, .consumed)
    | .ctrlEnd =>
        if ta.buffer.isEmpty then none
        else
          some ({ ta with
                    row := asU16 (ta.buffer.length - 1),
                    col := asU16 (((ta.buffer.getLast?).map List.length).getD 0) }, .consumed)
    | .endKey =>
        if col < currLen then some ({ ta with col := currLen }, .consumed)
        else some (ta, .notConsumed)
    | .backspace =>
        match ta.remove_prev_char with
        | none => none
        | some (ta1, true) => (update_completion src ta1).map (fun ta2 => (ta2, .consumed))
        | some (ta1, false) => some (ta1, .notConsumed)
    | .left =>
        let ta := { ta with completion := ta.completion.reset }
        if col = 0 ∧ row > 0 then
          some ({ ta with col := lastLen, row := row - 1 }, .consumed)
        else if col > 0 then some ({ ta with col := col - 1 }, .consumed)
        else some (ta, .notConsumed)
    | .right =>
        let ta := { ta with completion := ta.completion.reset }
        if col = currLen ∧ row < ta.buffer.length - 1 then
          some ({ ta with col := 0, row := satAdd row 1 }, .consumed)
        else if col < currLen then some ({ ta with col := satAdd col 1 }, .consumed)
        else some (ta, .notConsumed)
    | .up =>
        let ta := { ta with completion := ta.completion.reset }
        if row > 0 then
          some ({ ta with
                    row := row - 1,
                    col := if col > lastLen then lastLen else col }, .consumed)
        else some (ta, .notConsumed)
    | .down =>
        let ta := { ta with completion := ta.completion.reset }
        if row < ta.buffer.length - 1 then
          let staleLen := asU16 (((ta.buffer[row]?).map List.length).getD 0)
          some ({ ta with
                    row := satAdd row 1,
                    col := if col > staleLen then staleLen else col }, .consumed)
        else some (ta, .notConsumed)
    | _ => some (ta, .notConsumed)

end TextArea

/-! ## `components/sql_editor.rs` -/

/-- `compute_character_width` (`components/mod.rs`):
`UnicodeWidthChar::width(c).unwrap()`.  Modelled for the printable
ASCII range, where the Unicode width is 1; every concrete input below
is printable ASCII. -/
def compute_character_width (c : Char) : Nat :=
  if 0x20 ≤ c.val.toNat ∧ c.val.toNat < 0x7f then 1 else 0

/-- `SqlEditorComponent` state.  The embedded result table, the query
result and the paragraph scroll state take no part in the key handling
the claims are about and are omitted; `focusTable` is
`matches!(self.focus, Focus::Table)`. -/
structure SqlEditor where
  input : List Char
  input_idx : Nat
  input_cursor_position_x : Nat
  completion : CompletionState
  focusTable : Bool
deriving DecidableEq, Repr

namespace SqlEditor

/-- `SqlEditorComponent::last_word_part`.  Searches the **whole**
buffer for the last separator and slices `input[(index+length)..input_idx]`;
`none` models that slice's panic (start beyond end / end beyond len). -/
def last_word_part (ed : SqlEditor) : Option (List Char) :=
  match find_last_separator ed.input with
  | some pos =>
      if pos.index + pos.length ≤ ed.input_idx ∧ ed.input_idx ≤ ed.input.length then
        some ((ed.input.take ed.input_idx).drop (pos.index + pos.length))
      else none
  | none => some ed.input

/-- `SqlEditorComponent::complete`: the committed code is a stub — it
logs `"TODO: reimplement completion!"` and only resets the completion
component.  The buffer and cursor are untouched. -/
def complete (ed : SqlEditor) : SqlEditor :=
  { ed with completion := ed.completion.reset }

/-- Width of the line suffix after the last `'\n'` (the Backspace arm's
reverse scan). -/
def width_after_last_newline (input : List Char) : Nat :=
  ((input.reverse.takeWhile (fun c => c ≠ '\n')).map compute_character_width).sum

/-- `SqlEditorComponent::editor_key_event`.  `none` models panics
(`Vec::insert` out of range, slice panics in `last_word_part`, `u16`
subtraction underflow in debug builds).  The `F5` arm (query execution
against the pool) concerns no claim and is not reachable from the
modelled `Key` type. -/
def editor_key_event (src : CompletionSource) (key : Key) (ed : SqlEditor) :
    Option (SqlEditor × EventState) :=
  match key with
  | .char c =>
      if ed.input_idx ≤ ed.input.length then
        let ed1 := { ed with
                       input := ed.input.take ed.input_idx ++ c :: ed.input.drop ed.input_idx,
                       input_idx := ed.input_idx + 1,
                       input_cursor_position_x :=
                         asU16 (ed.input_cursor_position_x + compute_character_width c) }
        match ed1.last_word_part with
        | some w => some ({ ed1 with completion := ed1.completion.update w (src w) }, .consumed)
        | none => none
      else none
  | .enter =>
      if ed.completion.is_visible then some (ed.complete, .consumed)
      else
        if ed.input_idx ≤ ed.input.length then
          some ({ ed with
                    input := ed.input.take ed.input_idx ++ '\n' :: ed.input.drop ed.input_idx,
                    input_idx := ed.input_idx + 1,
                    input_cursor_position_x := 0 }, .consumed)
        else none
  | .tab =>
      if ed.completion.is_visible then some (ed.complete, .consumed)
      else some (ed, .notConsumed)
  | .esc => some ({ ed with focusTable := true }, .consumed)
  | .backspace =>
      -- `input_str.width() > 0 && !self.input.is_empty() && self.input_idx > 0`
      if (ed.input.map compute_character_width).sum > 0 ∧ ed.input ≠ [] ∧
          ed.input_idx > 0 then
        if ed.input_idx - 1 < ed.input.length then
          let last_c := (ed.input[ed.input_idx - 1]?).getD ' '
          let input1 := ed.input.eraseIdx (ed.input_idx - 1)
          if last_c = '\n' then
            some ({ ed with
                      input := input1, input_idx := ed.input_idx - 1,
                      input_cursor_position_x := width_after_last_newline input1 },
                  .consumed)
          else
            -- `self.input_cursor_position_x -= compute_character_width(&last_c)`:
            -- `u16` subtraction, which panics on underflow in debug builds
            if compute_character_width last_c ≤ ed.input_cursor_position_x then
              some ({ ed with
                        input := input1, input_idx := ed.input_idx - 1,
                        input_cursor_position_x :=
                          ed.input_cursor_position_x - compute_character_width last_c },
                    .consumed)
            else none
        else none
      else some (ed, .consumed)
  | .left =>
      if ed.input ≠ [] ∧ ed.input_idx > 0 then
        if ed.input_idx - 1 < ed.input.length then
          let c := (ed.input[ed.input_idx - 1]?).getD ' '
          some ({ ed with
                    input_idx := ed.input_idx - 1,
                    input_cursor_position_x :=
                      ed.input_cursor_position_x - compute_character_width c }, .consumed)
        else none
      else some (ed, .consumed)
  | .right =>
      if ed.input_idx < ed.input.length then
        let c := (ed.input[ed.input_idx]?).getD ' '
        some ({ ed with
                  input_idx := ed.input_idx + 1,
                  input_cursor_position_x :=
                    asU16 (ed.input_cursor_position_x + compute_character_width c) },
              .consumed)
      else some (ed, .consumed)
  | _ => some (ed, .notConsumed)

end SqlEditor

/-! ## `components/tab.rs` -/

/-- The `TabType` of a tab component. -/
inductive TabType where
  | records
  | properties
  | sql
deriving DecidableEq, Repr

/-- The joint state of `TabPanel::tab_components` and its
`TabToolbar` (`tab_names`, `selected_tab_index`).  The two lists are
created and mutated in lockstep by the panel. -/
structure TabPanel where
  tab_names : List (List Char)
  tab_components : List TabType
  selected_tab_index : Nat
deriving DecidableEq, Repr

namespace TabPanel

/-- `TabPanel::new`: the two fixed tabs (`RecordTableComponent`,
`PropertiesComponent`), toolbar names taken from their `tab_name()`,
selected index 0. -/
def new : TabPanel :=
  ⟨["Records".toList, "Properties".toList], [.records, .properties], 0⟩

/-- `TabMessage::NewEditor` handling in `TabPanel::handle_messages`:
`num = tab_components.len() - 1` (a `usize` subtraction that panics in
debug builds on an empty list — `none`), push a new
`SqlEditorComponent` named `"Sql Editor {num}"`, and
`TabToolbar::add_tab` its name. -/
def handle_new_editor (p : TabPanel) : Option TabPanel :=
  if p.tab_components.length = 0 then none
  else
    let num := p.tab_components.length - 1
    let tab_name := "Sql Editor ".toList ++ (Nat.repr num).toList
    some ⟨p.tab_names ++ [tab_name], p.tab_components ++ [.sql],
          p.selected_tab_index⟩

/-- `TabPanel::close_selected_editor` (the `TabMessage::CloseCurrentEditor`
handler): a close request targeting the Records or Properties tab (or an
out-of-range index) returns without removing anything; otherwise it
removes the component and calls `TabToolbar::remove_tab`, which removes
the name (`Vec::remove`, panic when out of range — `none`) and clamps
the selected index to `len - 1` (a `usize` subtraction that panics in
debug builds when the name list became empty — `none`). -/
def close_selected_editor (p : TabPanel) : Option TabPanel :=
  let index := p.selected_tab_index
  match p.tab_components[index]? with
  | none => some p
  | some .records => some p
  | some .properties => some p
  | some .sql =>
      let comps1 := p.tab_components.eraseIdx index
      if index < p.tab_names.length then
        let names1 := p.tab_names.eraseIdx index
        if p.selected_tab_index ≥ names1.length then
          if names1.length = 0 then none
          else some ⟨names1, comps1, names1.length - 1⟩
        else some ⟨names1, comps1, p.selected_tab_index⟩
      else none

/-- The events that drive the tab panel state machine the claim is
about: the two tab messages, and the toolbar key events that move the
selected index (`TabToolbar::event`: digit jump, the two focus keys,
`Home`, `End`). -/
inductive TabOp where
  | newEditor
  | closeCurrent
  | digit (d : Nat)
  | focusLeft
  | focusRight
  | homeKey
  | endKey

/-- One tab-panel step. -/
def step (op : TabOp) (p : TabPanel) : Option TabPanel :=
  match op with
  | .newEditor => p.handle_new_editor
  | .closeCurrent => p.close_selected_editor
  | .digit d =>
      if 0 < d ∧ d ≤ p.tab_names.length ∧ p.tab_names ≠ [] then
        some { p with selected_tab_index := d - 1 }
      else some p
  | .focusLeft =>
      if p.selected_tab_index > 0 then
        some { p with selected_tab_index := p.selected_tab_index - 1 }
      else some p
  | .focusRight =>
      -- `selected_tab_index < self.tab_names.len() - 1`: the `usize`
      -- subtraction panics in debug builds on an empty name list
      if p.tab_names.length = 0 then none
      else if p.selected_tab_index < p.tab_names.length - 1 then
        some { p with selected_tab_index := p.selected_tab_index + 1 }
      else some p
  | .homeKey => some { p with selected_tab_index := 0 }
  | .endKey =>
      -- `selected_tab_index = self.tab_names.len() - 1`
      if p.tab_names.length = 0 then none
      else some { p with selected_tab_index := p.tab_names.length - 1 }

/-- A sequence of tab-panel steps; `none` as soon as one panics. -/
def run (ops : List TabOp) (p : TabPanel) : Option TabPanel :=
  match ops with
  | [] => some p
  | op :: rest => (step op p).bind (run rest)

/-- The tab panel invariant: names and components in lockstep, the
Records tab at index 0 and the Properties tab at index 1, and the
selected index strictly below the tab count. -/
def inv (p : TabPanel) : Prop :=
  p.tab_names.length = p.tab_components.length ∧
  p.tab_components[0]? = some .records ∧
  p.tab_components[1]? = some .properties ∧
  p.selected_tab_index < p.tab_names.length

instance (p : TabPanel) : Decidable (inv p) := by
  unfold inv; infer_instance

/-- `inv` holds of the run's result (in particular no step panicked). -/
def invRun (o : Option TabPanel) : Prop :=
  match o with
  | some p => inv p
  | none => False

end TabPanel

/-! ## `app.rs` — pool replacement (`App::update_databases`) -/

/-- The backend kind of a connection. -/
inductive Backend where
  | mysql
  | postgres
  | sqlite
deriving DecidableEq, Repr

/-- The part of a `Connection` that `update_databases` consults:
its backend kind, and whether `conn.database_url()` succeeds. -/
structure Conn where
  backend : Backend
  urlOk : Bool
deriving DecidableEq, Repr

/-- Observable pool operations, in program order.  Pools are named by
identifiers; `p` is the old pool, the freshly constructed pool gets a
caller-chosen fresh identifier. -/
inductive PoolEvent where
  | close (p : Nat)
  | construct (b : Backend) (p : Nat)
  | store (p : Nat)
  | dbUpdate (p : Nat)
deriving DecidableEq, Repr

/-- `App::update_databases` as a trace-producing function.  The Rust
function is a sequential `async fn` on the single-threaded UI task, so
its `await` points happen in program order:

1. if a connection is selected and a pool exists, `pool.close().await`;
2. `conn.database_url()?` (on `Err`, early return with the old pool
   still stored);
3. `…Pool::new(url).await?` for the connection's backend (on `Err`,
   early return, old pool still stored);
4. the new pool is stored in `self.pool`;
5. `self.databases.update(conn, self.pool.as_ref().unwrap()).await?`
   issues the first operations on the new pool.

Returns the event trace, the pool stored afterwards, and whether the
function returned `Ok`. -/
def update_databases (selected : Option Conn) (pool : Option Nat) (newId : Nat)
    (constructOk : Bool) : List PoolEvent × Option Nat × Bool :=
  match selected with
  | none => ([], pool, true)
  | some conn =>
      let closeEvts : List PoolEvent :=
        match pool with
        | some p => [.close p]
        | none => []
      if !conn.urlOk then (closeEvts, pool, false)
      else if !constructOk then (closeEvts, pool, false)
      else (closeEvts ++ [.construct conn.backend newId, .store newId, .dbUpdate newId],
            some newId, true)

/-- Is this event a `close`? -/
def PoolEvent.isClose : PoolEvent → Bool
  | .close _ => true
  | _ => false

/-- The pool an event operates on. -/
def PoolEvent.pool : PoolEvent → Nat
  | .close p => p
  | .construct _ p => p
  | .store p => p
  | .dbUpdate p => p

/-! ## Lemmas about `find_last_separator` -/

theorem byteLen_nil : byteLen [] = 0 := rfl

theorem byteLen_append (a b : List Char) : byteLen (a ++ b) = byteLen a + byteLen b := by
  simp [byteLen]

theorem byteLen_reverse (a : List Char) : byteLen a.reverse = byteLen a := by
  simp [byteLen, List.map_reverse, List.sum_reverse]

theorem byteLen_eq_length (a : List Char) (h : ∀ c ∈ a, c.utf8Size = 1) :
    byteLen a = a.length := by
  induction a with
  | nil => rfl
  | cons c l ih =>
      have hc := h c (by simp)
      have hl := ih (fun d hd => h d (by simp [hd]))
      simp [byteLen] at hl ⊢
      omega

theorem takeWhile_dropWhile_self (p : Char → Bool) (l : List Char) :
    (l.dropWhile p).takeWhile p = [] := by
  induction l with
  | nil => rfl
  | cons a l ih =>
      by_cases h : p a
      · simpa [List.dropWhile_cons, h] using ih
      · simp [List.dropWhile_cons, h, List.takeWhile_cons]

theorem sep_of_word (x : List Char) (hx : ∀ c ∈ x, isWordChar c = true) :
    find_last_separator x = none := by
  have hd : x.reverse.dropWhile isWordChar = [] := by
    rw [List.dropWhile_eq_nil_iff]
    intro c hc
    exact hx c (List.mem_reverse.mp hc)
  simp [find_last_separator, hd]

theorem sep_append_word (s x : List Char) (hx : ∀ c ∈ x, isWordChar c = true) :
    find_last_separator (s ++ x) = find_last_separator s := by
  have hxr : ∀ c ∈ x.reverse, isWordChar c = true := by
    intro c hc; exact hx c (List.mem_reverse.mp hc)
  have hd : x.reverse.dropWhile isWordChar = [] := by
    rw [List.dropWhile_eq_nil_iff]; exact hxr
  have ht : x.reverse.takeWhile isWordChar = x.reverse := by
    rw [List.takeWhile_eq_self_iff]; exact hxr
  have hdrop : (s ++ x).reverse.dropWhile isWordChar = s.reverse.dropWhile isWordChar := by
    rw [List.reverse_append, List.dropWhile_append, hd]
    simp
  have htake : (s ++ x).reverse.takeWhile isWordChar
      = x.reverse ++ s.reverse.takeWhile isWordChar := by
    rw [List.reverse_append, List.takeWhile_append, ht]
    simp
  simp only [find_last_separator, hdrop, htake]
  by_cases hrun : ((s.reverse.dropWhile isWordChar).takeWhile (fun c => !isWordChar c)).isEmpty
  · simp [hrun]
  · have harith : byteLen (s ++ x) - byteLen (x.reverse ++ s.reverse.takeWhile isWordChar)
        = byteLen s - byteLen (s.reverse.takeWhile isWordChar) := by
      rw [byteLen_append, byteLen_append, byteLen_reverse]
      omega
    simp only [hrun, if_false, harith]

theorem sep_decomp (s : List Char) (i l : Nat)
    (h : find_last_separator s = some ⟨i, l⟩) :
    ∃ rest2 run w : List Char,
      s = rest2.reverse ++ run.reverse ++ w.reverse ∧
      run ≠ [] ∧
      (∀ c ∈ run, isWordChar c = false) ∧
      rest2.takeWhile (fun c => !isWordChar c) = [] ∧
      i = byteLen rest2 ∧ l = byteLen run := by
  simp only [find_last_separator] at h
  set w := s.reverse.takeWhile isWordChar with hw
  set rest := s.reverse.dropWhile isWordChar with hrest
  set run := rest.takeWhile (fun c => !isWordChar c) with hrun
  set rest2 := rest.dropWhile (fun c => !isWordChar c) with hrest2
  by_cases he : run.isEmpty
  · simp [he] at h
  · simp only [he, if_false, Option.some.injEq, PatternPosition.mk.injEq] at h
    refine ⟨rest2, run, w, ?_, ?_, ?_, ?_, ?_, ?_⟩
    · have h1 : w ++ rest = s.reverse := List.takeWhile_append_dropWhile ..
      have h2 : run ++ rest2 = rest := List.takeWhile_append_dropWhile ..
      calc s = s.reverse.reverse := (List.reverse_reverse s).symm
        _ = (w ++ rest).reverse := by rw [h1]
        _ = (w ++ (run ++ rest2)).reverse := by rw [h2]
        _ = rest2.reverse ++ run.reverse ++ w.reverse := by
              simp [List.reverse_append, List.append_assoc]
    · simpa [List.isEmpty_iff] using he
    · intro c hc
      have := List.mem_takeWhile_imp hc
      simpa using this
    · exact takeWhile_dropWhile_self _ _
    · obtain ⟨hi, hl⟩ := h
      have h1 : w ++ rest = s.reverse := List.takeWhile_append_dropWhile ..
      have h2 : run ++ rest2 = rest := List.takeWhile_append_dropWhile ..
      have hbl : byteLen s = byteLen w + byteLen run + byteLen rest2 := by
        have hb : byteLen s.reverse = byteLen (w ++ (run ++ rest2)) := by rw [h2, h1]
        rw [byteLen_reverse, byteLen_append, byteLen_append] at hb
        omega
      omega
    · obtain ⟨hi, hl⟩ := h
      omega

theorem sep_of_decomp (rest2 run : List Char)
    (hrun : run ≠ []) (hnw : ∀ c ∈ run, isWordChar c = false)
    (h2 : rest2.takeWhile (fun c => !isWordChar c) = []) :
    find_last_separator (rest2.reverse ++ run.reverse) =
      some ⟨byteLen rest2, byteLen run⟩ := by
  obtain ⟨c, run₀, rfl⟩ := List.exists_cons_of_ne_nil hrun
  have hc : isWordChar c = false := hnw c (by simp)
  have hrev : (rest2.reverse ++ (c :: run₀).reverse).reverse = c :: (run₀ ++ rest2) := by
    simp [List.reverse_append]
  have htakeW : ((c :: run₀) ++ rest2).takeWhile isWordChar = [] := by
    simp [List.takeWhile_cons, hc]
  have hdropW : ((c :: run₀) ++ rest2).dropWhile isWordChar = (c :: run₀) ++ rest2 := by
    simp [List.dropWhile_cons, hc]
  have hself : (c :: run₀).takeWhile (fun c => !isWordChar c) = c :: run₀ := by
    rw [List.takeWhile_eq_self_iff]
    intro d hd
    simp [hnw d hd]
  have htakeN : ((c :: run₀) ++ rest2).takeWhile (fun c => !isWordChar c) = c :: run₀ := by
    rw [List.takeWhile_append]
    simp [hself, h2]
  simp only [find_last_separator, hrev]
  rw [List.cons_append] at htakeW hdropW htakeN
  simp only [htakeW, hdropW, htakeN]
  have hbl : byteLen (rest2.reverse ++ (c :: run₀).reverse) = byteLen rest2 + byteLen (c :: run₀) := by
    rw [byteLen_append, byteLen_reverse, byteLen_reverse]
  simp only [List.isEmpty_cons, if_false, hbl, byteLen_nil]
  simp [PatternPosition.mk.injEq]

theorem sep_take (s : List Char) (i l : Nat)
    (h : find_last_separator s = some ⟨i, l⟩)
    (hA : ∀ c ∈ s, c.utf8Size = 1) :
    i + l ≤ s.length ∧ (s.take (i + l)).length = i + l ∧
      find_last_separator (s.take (i + l)) = some ⟨i, l⟩ := by
  obtain ⟨rest2, run, w, hs, hrun, hnw, h2, hi, hl⟩ := sep_decomp s i l h
  have hmem : ∀ c ∈ rest2.reverse ++ run.reverse, c ∈ s := by
    intro c hc
    rw [hs]
    rcases List.mem_append.mp hc with h1 | h1
    · exact List.mem_append_left _ (List.mem_append_left _ h1)
    · exact List.mem_append_left _ (List.mem_append_right _ h1)
  have hA2 : ∀ c ∈ rest2.reverse ++ run.reverse, c.utf8Size = 1 :=
    fun c hc => hA c (hmem c hc)
  have hlen : (rest2.reverse ++ run.reverse).length = i + l := by
    have hb := byteLen_eq_length (rest2.reverse ++ run.reverse) hA2
    rw [byteLen_append, byteLen_reverse, byteLen_reverse] at hb
    simp at hb ⊢
    omega
  have htake : s.take (i + l) = rest2.reverse ++ run.reverse := by
    rw [hs]
    exact List.take_left' hlen
  have hslen : (i + l) ≤ s.length := by
    have hlen2 : rest2.length + run.length = i + l := by simpa using hlen
    rw [hs]
    simp
    omega
  refine ⟨hslen, ?_, ?_⟩
  · rw [htake, hlen]
  · rw [htake, sep_of_decomp rest2 run hrun hnw h2, hi, hl]

/-- The round trip at the heart of claim C8, for word-only replacement
text and an ASCII buffer prefix: `replace_last_word_part x` followed by
`last_word_part` yields `x` (and neither call panics). -/
theorem replace_then_query (tb : TextBox) (x : List Char)
    (hcur : tb.input_cursor_position ≤ tb.input.length)
    (hA : ∀ c ∈ tb.input.take tb.input_cursor_position, c.utf8Size = 1)
    (hx : ∀ c ∈ x, isWordChar c = true) :
    (tb.replace_last_word_part x).bind TextBox.last_word_part = some x := by
  unfold TextBox.replace_last_word_part
  rw [if_pos hcur]
  set s := tb.input.take tb.input_cursor_position with hs
  have hslen : s.length = tb.input_cursor_position := by
    rw [hs, List.length_take]
    omega
  cases hsep : find_last_separator s with
  | none =>
      dsimp only [Option.bind]
      unfold TextBox.last_word_part
      rw [if_pos (le_refl _), List.take_length]
      dsimp only
      rw [sep_of_word x hx]
  | some p =>
      obtain ⟨i, l⟩ := p
      obtain ⟨hle, hplen, hsep2⟩ := sep_take s i l hsep hA
      have hle2 : i + l ≤ tb.input_cursor_position := by omega
      have hguard : i + l ≤ tb.input.length := by omega
      dsimp only
      rw [if_pos hguard]
      dsimp only [Option.bind]
      have htt : tb.input.take (i + l) = s.take (i + l) := by
        rw [hs, List.take_take]
        congr 1
        omega
      rw [htt]
      unfold TextBox.last_word_part
      rw [if_pos (le_refl _), List.take_length]
      dsimp only
      rw [sep_append_word _ x hx, hsep2]
      dsimp only
      have hPx : i + l ≤ (s.take (i + l) ++ x).length := by
        rw [List.length_append, hplen]
        omega
      rw [if_pos hPx]
      have hdrop : (s.take (i + l) ++ x).drop (i + l) = x := by
        have hd := List.drop_left (s.take (i + l)) x
        rwa [hplen] at hd
      rw [hdrop]

/-! ## Invariant preservation: completion selection bounds -/

/-- `change_selection` preserves the selection-bounds invariant. -/
theorem change_selection_inv (st : CompletionState) (off : Int) (h : compInv st) :
    compInv (st.change_selection off) := by
  unfold CompletionState.change_selection
  cases hsel : st.selected with
  | none => simpa [hsel] using h
  | some i =>
      simp only [hsel]
      by_cases hlt : (if off > 0 then i + off.toNat else i - (-off).toNat) < st.candidates.length
      · simp only [hlt, if_pos, if_true]
        simpa [compInv] using hlt
      · simp only [hlt, if_false]
        exact h

/-- Every completion operation preserves the selection-bounds invariant. -/
theorem compStep_inv (op : CompOp) (st : CompletionState) (h : compInv st) :
    compInv (compStep op st) := by
  cases op with
  | update w res =>
      cases res with
      | ok cs =>
          simp only [compStep, CompletionState.update]
          by_cases h0 : cs.isEmpty
          · simp [compInv, h0]
          · simp only [h0, if_false]
            cases cs with
            | nil => simp at h0
            | cons a t => simp [compInv]
      | error e => simp [compStep, CompletionState.update, compInv]
  | moveDown => exact change_selection_inv st 1 h
  | moveUp => exact change_selection_inv st (-1) h
  | reset => simp [compStep, CompletionState.reset, compInv]

/-- The invariant holds after any operation sequence from an invariant
state. -/
theorem runCompOps_inv (ops : List CompOp) (st : CompletionState) (h : compInv st) :
    compInv (runCompOps ops st) := by
  induction ops generalizing st with
  | nil => exact h
  | cons op rest ih => exact ih _ (compStep_inv op st h)

/-- Under the invariant, `selected_candidate` does not panic. -/
theorem selected_candidate_isSome (st : CompletionState) (h : compInv st) :
    st.selected_candidate.isSome = true := by
  unfold CompletionState.selected_candidate
  cases hsel : st.selected with
  | none => simp
  | some i =>
      have hi : i < st.candidates.length := by
        simp only [compInv, hsel] at h
        exact h
      simp [hi]

/-! ## Invariant preservation: tab panel -/

/-- Every tab-panel step preserves the invariant (and does not panic). -/
theorem tabStep_inv (op : TabPanel.TabOp) (p : TabPanel) (h : p.inv) :
    TabPanel.invRun (TabPanel.step op p) := by
  obtain ⟨hlen, h0, h1, hsel⟩ := h
  have hlen2 : 2 ≤ p.tab_components.length := by
    have := (List.getElem?_eq_some.mp h1).1
    omega
  have hnames2 : 2 ≤ p.tab_names.length := by omega
  cases op with
  | newEditor =>
      have hne : ¬ p.tab_components.length = 0 := by omega
      simp only [TabPanel.step, TabPanel.handle_new_editor, hne, if_false]
      have ha : (p.tab_names ++ ["Sql Editor ".toList ++ (Nat.repr (p.tab_components.length - 1)).toList]).length
          = (p.tab_components ++ [TabType.sql]).length := by
        simp [hlen]
      have hb : (p.tab_components ++ [TabType.sql])[0]? = some TabType.records := by
        rw [List.getElem?_append, if_pos (by omega)]
        exact h0
      have hc : (p.tab_components ++ [TabType.sql])[1]? = some TabType.properties := by
        rw [List.getElem?_append, if_pos (by omega)]
        exact h1
      have hd : p.selected_tab_index
          < (p.tab_names ++ ["Sql Editor ".toList ++ (Nat.repr (p.tab_components.length - 1)).toList]).length := by
        simp
        omega
      exact ⟨ha, hb, hc, hd⟩
  | closeCurrent =>
      simp only [TabPanel.step, TabPanel.close_selected_editor]
      cases hcomp : p.tab_components[p.selected_tab_index]? with
      | none => exact ⟨hlen, h0, h1, hsel⟩
      | some k =>
          cases k with
          | records => exact ⟨hlen, h0, h1, hsel⟩
          | properties => exact ⟨hlen, h0, h1, hsel⟩
          | sql =>
              have hs0 : p.selected_tab_index ≠ 0 := by
                intro he
                rw [he, h0] at hcomp
                simp at hcomp
              have hs1 : p.selected_tab_index ≠ 1 := by
                intro he
                rw [he, h1] at hcomp
                simp at hcomp
              have hsel2 : 2 ≤ p.selected_tab_index := by omega
              have hidx : p.selected_tab_index < p.tab_names.length := hsel
              rw [if_pos hidx]
              have hlen1 : (p.tab_names.eraseIdx p.selected_tab_index).length
                  = p.tab_names.length - 1 := by
                rw [List.length_eraseIdx, if_pos hidx]
              have hlenc : (p.tab_components.eraseIdx p.selected_tab_index).length
                  = p.tab_components.length - 1 := by
                rw [List.length_eraseIdx, if_pos (by omega)]
              have hg0 : (p.tab_components.eraseIdx p.selected_tab_index)[0]?
                  = some TabType.records := by
                rw [List.getElem?_eraseIdx, if_pos (by omega)]
                exact h0
              have hg1 : (p.tab_components.eraseIdx p.selected_tab_index)[1]?
                  = some TabType.properties := by
                rw [List.getElem?_eraseIdx, if_pos (by omega)]
                exact h1
              by_cases hcl2 : p.selected_tab_index ≥ (p.tab_names.eraseIdx p.selected_tab_index).length
              · rw [if_pos hcl2]
                have hne0 : ¬ (p.tab_names.eraseIdx p.selected_tab_index).length = 0 := by
                  omega
                rw [if_neg hne0]
                have ha : (p.tab_names.eraseIdx p.selected_tab_index).length
                    = (p.tab_components.eraseIdx p.selected_tab_index).length := by
                  omega
                have hd : (p.tab_names.eraseIdx p.selected_tab_index).length - 1
                    < (p.tab_names.eraseIdx p.selected_tab_index).length := by
                  omega
                exact ⟨ha, hg0, hg1, hd⟩
              · rw [if_neg hcl2]
                push_neg at hcl2
                have ha : (p.tab_names.eraseIdx p.selected_tab_index).length
                    = (p.tab_components.eraseIdx p.selected_tab_index).length := by
                  omega
                exact ⟨ha, hg0, hg1, hcl2⟩
  | digit d =>
      simp only [TabPanel.step]
      by_cases hg : 0 < d ∧ d ≤ p.tab_names.length ∧ p.tab_names ≠ []
      · rw [if_pos hg]
        exact ⟨hlen, h0, h1, by dsimp only; omega⟩
      · rw [if_neg hg]
        exact ⟨hlen, h0, h1, hsel⟩
  | focusLeft =>
      simp only [TabPanel.step]
      by_cases hg : p.selected_tab_index > 0
      · rw [if_pos hg]
        exact ⟨hlen, h0, h1, by dsimp only; omega⟩
      · rw [if_neg hg]
        exact ⟨hlen, h0, h1, hsel⟩
  | focusRight =>
      have hne : ¬ p.tab_names.length = 0 := by omega
      simp only [TabPanel.step]
      rw [if_neg hne]
      by_cases hg : p.selected_tab_index < p.tab_names.length - 1
      · rw [if_pos hg]
        exact ⟨hlen, h0, h1, by dsimp only; omega⟩
      · rw [if_neg hg]
        exact ⟨hlen, h0, h1, hsel⟩
  | homeKey =>
      exact ⟨hlen, h0, h1, by dsimp only; omega⟩
  | endKey =>
      have hne : ¬ p.tab_names.length = 0 := by omega
      simp only [TabPanel.step]
      rw [if_neg hne]
      exact ⟨hlen, h0, h1, by dsimp only; omega⟩

/-- The invariant holds along any event sequence from an invariant
state. -/
theorem tabRun_inv (ops : List TabPanel.TabOp) (p : TabPanel) (h : p.inv) :
    TabPanel.invRun (TabPanel.run ops p) := by
  induction ops generalizing p with
  | nil => exact h
  | cons op rest ih =>
      have h1 := tabStep_inv op p h
      unfold TabPanel.run
      cases hstep : TabPanel.step op p with
      | none =>
          rw [hstep] at h1
          exact h1.elim
      | some q =>
          rw [hstep] at h1
          simpa using ih q h1

/-! ## Claim theorems -/

/-- **C1** — Tab panel state-machine invariant: starting from the
initial panel (Records and Properties tabs, selected index 0), after
any sequence of `TabNew`/`TabCloseCurrent` message handlings — and, in
strengthening, any interleaved toolbar selection key events — the
toolbar's `selected_tab_index` is strictly less than the number of
tabs, the Records tab and the Properties tab are still present (a close
request targeting them removes nothing), and no step panics. -/
theorem tab_panel_invariant_holds (ops : List TabPanel.TabOp) :
    TabPanel.invRun (TabPanel.run ops TabPanel.new) :=
  tabRun_inv ops TabPanel.new (by decide)

/-- **C2** — the text-area cursor claim fails on the code: in a freshly
constructed `TextArea` the line buffer is empty, and handling `Enter`
calls `Vec::insert(1, …)` on the empty `Vec<String>`, which panics
(`none` in the model), for any completion source.  (The claimed
invariant `r < lines.len()` also fails at the fresh state itself, where
`r = 0` and `lines.len() = 0`.) -/
theorem textarea_enter_on_empty_buffer_panics (src : CompletionSource) :
    TextArea.event src kcJK .enter TextArea.new = none := rfl

/-- **C3** — the text-box single-key claim fails on the code: in the
`Ctrl+Backspace` arm the `Vec<char>` buffer is sliced with **byte**
offsets taken from the regex match over the collected `String`.  On the
buffer `['a', '—']` (em dash, 3 UTF-8 bytes) with cursor 2 (a
well-formed state, `cursor ≤ len`), the match `\W+` = `"—"` has byte
span `[1, 4)`, `4 ≠ 2`, and the code evaluates `input[0..4]` on a
2-element vector: out-of-bounds panic (`none` in the model). -/
theorem textbox_ctrl_backspace_multibyte_out_of_bounds :
    TextBox.handle_textbox_event .ctrlBackspace ⟨['a', '—'], 2⟩ = none := by decide

/-- **C4**, counterexample — on a source error `update` does **not**
degrade the candidate list to the empty list: from the reachable state
with candidates `["AND"]` (obtained from a successful update on
`"an"`), an update whose source fails leaves the stale candidates
`["AND"] ≠ []` in place (only the selection is cleared). -/
theorem completion_update_error_keeps_stale_candidates :
    ((CompletionState.new.update "an".toList (.ok ["AND".toList])).update
        "a(".toList (.error ())).candidates = ["AND".toList] ∧
      ["AND".toList] ≠ ([] : List (List Char)) := by decide

/-- **C4**, amended — the completion update contract as the code
implements it: the word is stored; on success the candidate list is
replaced by the source's result and index 0 is selected iff that list
is non-empty; on failure `update` still returns normally, the selection
is cleared, and the candidate list is left unchanged (not emptied). -/
theorem completion_update_contract (st : CompletionState) (w : List Char)
    (res : SourceResult) :
    (st.update w res).word = w ∧
    (st.update w res).candidates =
      (match res with
       | .ok cs => cs
       | .error _ => st.candidates) ∧
    (st.update w res).selected =
      (match res with
       | .ok cs => if cs.isEmpty then none else some 0
       | .error _ => none) := by
  cases res <;> simp [CompletionState.update]

/-- **C5** — pool replacement ordering: whenever a connection is
selected while a pool `p` exists, the trace of `update_databases`
begins with `close p`, and every later event is a non-`close` operation
on the new pool — so the old pool's `close()` completes before the new
pool is constructed and stored, and no operation is issued on the new
pool before the old pool is closed.  This holds on every path
(`database_url` failure, pool-construction failure, success). -/
theorem pool_closed_before_new_pool_operations (conn : Conn) (p newId : Nat)
    (constructOk : Bool) :
    (update_databases (some conn) (some p) newId constructOk).1.head?
        = some (.close p) ∧
    ((update_databases (some conn) (some p) newId constructOk).1.tail).all
        (fun e => !e.isClose && e.pool == newId) = true := by
  obtain ⟨b, u⟩ := conn
  cases u <;> cases constructOk <;>
    simp [update_databases, PoolEvent.isClose, PoolEvent.pool]

/-- **C6** — the vertical-movement claim fails on the code for `Down`:
the clamp after `row += 1` reads `self.buffer.get(row)` with the stale
`row` binding taken before the increment, so the column is clamped
against the *departed* line, not the target line.  From buffer
`["ab", ""]` with cursor `(0, 2)`, `Down` yields cursor `(1, 2)`,
while the claim requires column `min 2 (len "") = 0`.  (`Up` does clamp
against its target line.) -/
theorem textarea_down_clamps_to_stale_line_length :
    TextArea.event (fun _ => .ok []) kcJK .down
        ⟨["ab".toList, []], CompletionState.new, 0, 2⟩
      = some (⟨["ab".toList, []], CompletionState.new, 1, 2⟩, .consumed) ∧
    ¬ (2 : Nat) = min 2 ([] : List Char).length := by decide

/-- **C7** — Ctrl+Backspace on the buffer `"SELECT * FROM us"` with the
cursor after the final character deletes back to the previous word
boundary (the last `\W+` run is the space at byte span `[13, 14)`):
the buffer becomes `"SELECT * FROM "` with the cursor at its end. -/
theorem ctrl_backspace_deletes_to_previous_word_boundary :
    TextBox.handle_textbox_event .ctrlBackspace ⟨"SELECT * FROM us".toList, 16⟩
      = some (⟨"SELECT * FROM ".toList, 14⟩, .consumed) := by decide

/-- **C8**, counterexample — the round trip fails for replacement text
containing a non-word character: on the freshly constructed (empty)
text box, `replace_last_word_part "a b"` followed by `last_word_part`
returns `"b"`, not `"a b"` — the separator search runs over the *new*
buffer, and the space inside the inserted text becomes the last
boundary. -/
theorem replace_last_word_part_roundtrip_fails_on_nonword_text :
    (TextBox.replace_last_word_part ⟨[], 0⟩ "a b".toList).bind TextBox.last_word_part
      = some "b".toList ∧ "b".toList ≠ "a b".toList := by decide

/-- **C8**, amended — for every `TextBox` state whose cursor is within
the buffer and whose characters before the cursor are ASCII (UTF-8 size
1), and every replacement string consisting only of word characters,
`replace_last_word_part x` followed by `last_word_part` returns `x`
(and neither call panics). -/
theorem replace_last_word_part_roundtrip (tb : TextBox) (x : List Char)
    (hcur : tb.input_cursor_position ≤ tb.input.length)
    (hA : ∀ c ∈ tb.input.take tb.input_cursor_position, c.utf8Size = 1)
    (hx : ∀ c ∈ x, isWordChar c = true) :
    (tb.replace_last_word_part x).bind TextBox.last_word_part = some x :=
  replace_then_query tb x hcur hA hx

/-- Witness for the amended C8 round trip at a concrete input:
buffer `"SELECT * FROM us"`, cursor 16, replacement `"users"`. -/
theorem replace_last_word_part_roundtrip_witness :
    (TextBox.replace_last_word_part ⟨"SELECT * FROM us".toList, 16⟩ "users".toList).bind
        TextBox.last_word_part = some "users".toList :=
  replace_last_word_part_roundtrip ⟨"SELECT * FROM us".toList, 16⟩ "users".toList
    (by decide) (by decide) (by decide)

/-- **C9** — the SQL-editor completion-commit claim fails on the code:
`SqlEditorComponent::complete` is a stub (`"TODO: reimplement
completion!"`) that only resets the completion dropdown.  With the
buffer `"sel"` and the visible completion offering `SELECT` (selected),
`Tab` consumes the key but leaves the buffer `"sel"` — it does not
become `"SELECT "`.  (`Enter` takes the same stub path.) -/
theorem sql_editor_tab_does_not_commit_candidate :
    (∀ src : CompletionSource,
      SqlEditor.editor_key_event src .tab
          ⟨"sel".toList, 3, 3, ⟨"sel".toList, ["SELECT".toList], some 0⟩, false⟩
        = some (⟨"sel".toList, 3, 3, ⟨[], ["SELECT".toList], none⟩, false⟩, .consumed)) ∧
    "sel".toList ≠ "SELECT ".toList :=
  ⟨fun _ => rfl, by decide⟩

/-- **C10** — completion selection stays in bounds: for every state
reachable from a fresh completion component by any sequence of
`update` (with any source result, including errors), selection moves
and `reset`, a selected index is strictly below the candidate-list
length, and `selected_candidate` never indexes out of bounds. -/
theorem completion_selection_in_bounds (ops : List CompOp) :
    compInv (runCompOps ops CompletionState.new) ∧
      (runCompOps ops CompletionState.new).selected_candidate.isSome = true :=
  have h := runCompOps_inv ops CompletionState.new (by trivial)
  ⟨h, selected_candidate_isSome _ h⟩
